import Mathlib

/-!
Verification development for the eBay laptop-auction scraper bot
(`src/scraper.py`, `src/filters.py`, `src/config.py`).

The pure decision logic of the repository is shallowly embedded below:
Python floats are modelled as `ℚ`, Python ints as `ℤ`/`ℕ`, fallible code
as `Option`/`Except String` (an `Except.error` models a raised Python
exception that a caller catches), and dict records as a structure of
`Option` fields (`none` models an absent key or a `None` value).
BeautifulSoup selector cascades are abstracted to their resolved outcome:
a `Fragment` carries, for each selector cascade of
`EbayScraper._parse_auction_item`, the text the cascade resolved
(`none` when no node resolved).  All post-resolution logic (title
denylist, id extraction from the URL, price/duration/bid parsing, the
whole filter/score pipeline) is translated statement by statement.
-/

namespace Scrapper

/-- Python's `str.lower()` (ASCII case folding, like `Char.toLower`),
computed through the character list so that it reduces by evaluation. -/
def strLower (s : String) : String :=
  String.mk (s.toList.map Char.toLower)

/-- Does `needle` occur as a contiguous segment of the list? -/
def segOccurs (needle : List Char) : List Char → Bool
  | [] => needle.isPrefixOf []
  | hay@(_ :: rest) => needle.isPrefixOf hay || segOccurs needle rest

/-- Python's `needle in hay` substring test on strings. -/
def strContains (hay needle : String) : Bool :=
  segOccurs needle.toList hay.toList

/-- Value of a run of ASCII digit characters, most significant first
(Python `int(run)`). -/
def digitsVal (cs : List Char) : ℕ :=
  cs.foldl (fun a c => 10 * a + (c.toNat - 48)) 0

/-- Model of `re.search(r'(\d+)X', text)` for a non-digit letter `X`:
scan left to right, accumulating the digit run that immediately precedes
the current position; the first time the unit letter `c` is reached with a
nonempty run, that run's value is the (leftmost, greedy) match. -/
def scanUnit (c : Char) (acc : Option ℕ) : List Char → Option ℕ
  | [] => none
  | x :: xs =>
    if x.isDigit then scanUnit c (some (10 * acc.getD 0 + (x.toNat - 48))) xs
    else if acc.isSome && x == c then acc
    else scanUnit c none xs

/-- `EbayScraper._parse_time_remaining` (src/scraper.py:265-289): lowercase
the text, add `24*d` for the first digit run before a `'d'`, `h` for the
first run before an `'h'`, `m/60` for the first run before an `'m'`;
absent units contribute `0`.  The function is total on strings, so the
`except` branch returning `999.0` is unreachable here. -/
def parse_time_remaining (s : String) : ℚ :=
  let t := (strLower s).toList
  let d := (scanUnit 'd' none t).getD 0
  let h := (scanUnit 'h' none t).getD 0
  let m := (scanUnit 'm' none t).getD 0
  24 * (d : ℚ) + (h : ℚ) + (m : ℚ) / 60

/-- Characters kept by `re.sub(r'[^\d.,]', '', price_text)`. -/
def priceKeep (c : Char) : Bool :=
  c.isDigit || c == '.' || c == ','

/-- The cleaned character list of `_parse_price`: keep digits, `.` and `,`,
then remove every `,` (Python `.replace(',', '')`). -/
def clean_chars (s : String) : List Char :=
  (s.toList.filter priceKeep).filter (fun c => !(c == ','))

/-- Split a character list at its first `'.'`; the second component is
`none` when no dot occurs. -/
def split_dot : List Char → List Char × Option (List Char)
  | [] => ([], none)
  | c :: cs =>
    if c == '.' then ([], some cs)
    else
      let p := split_dot cs
      (c :: p.1, p.2)

/-- Python `float(clean)` on a string made of digits and dots only:
at most one dot and at least one digit, value `int.frac`. -/
def float_of_clean (cs : List Char) : Option ℚ :=
  match split_dot cs with
  | (ip, none) => if ip.isEmpty then none else some ((digitsVal ip : ℚ))
  | (ip, some fp) =>
    if fp.contains '.' then none
    else if ip.isEmpty && fp.isEmpty then none
    else some ((digitsVal ip : ℚ) + (digitsVal fp : ℚ) / 10 ^ fp.length)

/-- `EbayScraper._parse_price` (src/scraper.py:223-235). -/
def parse_price (s : String) : Option ℚ :=
  let c := clean_chars s
  if c.isEmpty then none else float_of_clean c

/-- Brand vocabulary of `EbayScraper._extract_brand`, in declared order. -/
def brands : List String :=
  ["MacBook", "ThinkPad", "XPS", "Surface", "Alienware",
   "Dell", "Lenovo", "HP", "ASUS", "Acer", "MSI",
   "Apple", "Microsoft", "Razer", "Sony", "Toshiba"]

/-- `EbayScraper._extract_brand` (src/scraper.py:291-306): first vocabulary
entry whose lowercase form occurs in the lowercase title. -/
def extract_brand (title : String) : Option String :=
  brands.find? (fun b => strContains (strLower title) (strLower b))

/-- Value of the first digit run of a text, continued:
consume the remaining digits of the current run. -/
def takeNat (acc : ℕ) : List Char → ℕ
  | [] => acc
  | c :: cs => if c.isDigit then takeNat (10 * acc + (c.toNat - 48)) cs else acc

/-- Model of `re.search(r'(\d+)', text)`: value of the first digit run. -/
def firstNat : List Char → Option ℕ
  | [] => none
  | c :: cs => if c.isDigit then some (takeNat (c.toNat - 48) cs) else firstNat cs

/-- Model of `re.search(marker + keepclass-run, url)` used by
`_extract_ebay_id`: the leftmost position where `marker` occurs and is
followed by a run of `keep`-characters of length at least `minLen`;
the run is the captured group. -/
def searchRun (marker : List Char) (keep : Char → Bool) (minLen : ℕ) :
    List Char → Option (List Char)
  | [] => none
  | s@(_ :: rest) =>
    if marker.isPrefixOf s then
      let run := (s.drop marker.length).takeWhile keep
      if minLen ≤ run.length then some run
      else searchRun marker keep minLen rest
    else searchRun marker keep minLen rest

/-- Characters allowed in the `/itm/([^/?&]+)` capture. -/
def itmKeep (c : Char) : Bool :=
  !(c == '/') && !(c == '?') && !(c == '&')

/-- Accept a pattern capture if it is all digits of length at least 8
(`item_id.isdigit() and len(item_id) >= 8`); else fall through to the
next pattern. -/
def acceptId (r : Option (List Char)) : Option String :=
  match r with
  | some run => if run.all Char.isDigit && 8 ≤ run.length then some (String.mk run) else none
  | none => none

/-- `EbayScraper._extract_ebay_id` (src/scraper.py:196-221): the URL must
contain `ebay.com` (case-insensitively); then the four regex patterns are
tried in order, each contributing its first match when that match passes
the digits/length check. -/
def extract_ebay_id (url : String) : Option String :=
  if !(strContains (strLower url) "ebay.com") then none
  else
    let cs := url.toList
    (acceptId (searchRun "/itm/".toList itmKeep 1 cs)) <|>
    (acceptId (searchRun "item=".toList Char.isDigit 1 cs)) <|>
    (acceptId (searchRun "/".toList Char.isDigit 12 cs)) <|>
    (acceptId (searchRun "hash=item".toList Char.isDigit 1 cs))

/-- A listing record, modelling the Python dict built by
`_parse_auction_item` and enriched in place by `AuctionFilter`.
Every field is `Option`al: `none` models an absent key or a `None`
value (the two coincide for every read the pipeline performs). -/
structure Auction where
  ebay_id : Option String := none
  title : Option String := none
  url : Option String := none
  current_price : Option ℚ := none
  original_price : Option ℚ := none
  bids : Option ℤ := none
  time_remaining : Option String := none
  time_remaining_hours : Option ℚ := none
  shipping_text : Option String := none
  brand : Option String := none
  scraped_at : Option ℕ := none
  discount_percent : Option ℚ := none
  filter_reason : Option (List String) := none
  interest_score : Option ℚ := none
deriving DecidableEq, Repr

/-- `auction.get('current_price', 0)`. -/
def Auction.currentPriceD (a : Auction) : ℚ := a.current_price.getD 0

/-- `auction.get('bids', 0)`. -/
def Auction.bidsD (a : Auction) : ℤ := a.bids.getD 0

/-- `auction.get('time_remaining_hours', 999)`. -/
def Auction.timeHoursD (a : Auction) : ℚ := a.time_remaining_hours.getD 999

/-- `auction.get('title', '')`. -/
def Auction.titleD (a : Auction) : String := a.title.getD ""

/-- `auction.get('brand', '')`. -/
def Auction.brandD (a : Auction) : String := a.brand.getD ""

/-- `auction.get('discount_percent', 0)`. -/
def Auction.discountD (a : Auction) : ℚ := a.discount_percent.getD 0

/-- Python truthiness of an optional string (`if brand:`):
`None` and `''` are falsy. -/
def strTruthy : Option String → Bool
  | none => false
  | some s => !(s == "")

/-- The outcome of the selector cascades of `_parse_auction_item` on one
listing fragment: for each cascade, the text it resolved, or `none` when
no node resolved.  `linkHref` is the `href` of the resolved link element
(`get('href', '')` makes it a string whenever the element exists). -/
structure Fragment where
  titleText : Option String := none
  linkHref : Option String := none
  priceText : Option String := none
  bidText : Option String := none
  timeText : Option String := none
  shippingText : Option String := none
deriving DecidableEq, Repr

/-- Title denylist of `_parse_auction_item` (src/scraper.py:116-120),
including its final empty-string entry. -/
def invalid_titles : List String :=
  ["shop on ebay", "shop on ebayopens in a new window or tab",
   "save this search", "get an alert with the newest ads",
   "sponsored", "advertisement", ""]

/-- `EbayScraper._parse_bid_info` (src/scraper.py:237-263): first embedded
integer of the resolved bid text, `0` when no bid element or no digits. -/
def parse_bid_info (f : Fragment) : ℤ :=
  match f.bidText with
  | some t => ((firstNat t.toList).getD 0 : ℤ)
  | none => 0

/-- `EbayScraper._parse_auction_item` (src/scraper.py:98-194), after
selector resolution: the title must resolve, be nonempty and not contain
any denylist entry; a link must resolve and its URL yield an eBay id; a
price must resolve and parse; bid count, time remaining, shipping and
brand are then assembled into the record, stamped with `now`. -/
def parse_auction_item (now : ℕ) (f : Fragment) : Option Auction :=
  match f.titleText with
  | none => none
  | some title =>
    if title == "" || invalid_titles.any (fun inv => strContains (strLower title) inv) then
      none
    else
      match f.linkHref with
      | none => none
      | some url =>
        match extract_ebay_id url with
        | none => none
        | some ebayId =>
          match f.priceText with
          | none => none
          | some ptext =>
            match parse_price ptext with
            | none => none
            | some price =>
              let bids := parse_bid_info f
              let t0 := match f.timeText with
                | some t => t
                | none => "Unknown"
              let timeRem := if t0 == "Unknown" then "Buy It Now" else t0
              some
                { ebay_id := some ebayId
                  title := some title
                  url := some url
                  current_price := some price
                  bids := some bids
                  time_remaining := some timeRem
                  time_remaining_hours := some (parse_time_remaining timeRem)
                  shipping_text := some ((f.shippingText).getD "")
                  brand := extract_brand title
                  scraped_at := some now }

/-- A fragment handed to the extraction loop of `search_auctions`:
either processing it resolves normally, or working on it raises an
unexpected exception (any `Exception`), which the `try/except` inside
`_parse_auction_item` turns into `None`. -/
inductive FragmentInput where
  | ok (f : Fragment)
  | raises (msg : String)
deriving DecidableEq, Repr

/-- `_parse_auction_item` including its outermost `try/except`:
a raising fragment yields no record. -/
def parse_auction_item_safe (now : ℕ) : FragmentInput → Option Auction
  | .ok f => parse_auction_item now f
  | .raises _ => none

/-- The extraction loop of `EbayScraper.search_auctions`
(src/scraper.py:80-83): every fragment is processed independently and
only successful records are collected. -/
def search_auctions (now : ℕ) (items : List FragmentInput) : List Auction :=
  items.filterMap (parse_auction_item_safe now)

/-- The attributes `AuctionFilter` reads from its `config` object, each
recorded as present (`some`) or absent (`none`).  Reading an absent
attribute raises `AttributeError` in Python. -/
structure ConfigAttrs where
  MIN_PRICE : Option ℚ
  MAX_PRICE : Option ℚ
  PREMIUM_BRANDS : Option (List String)
  MAX_TIME_REMAINING_HOURS : Option ℚ
  MIN_BIDS : Option ℤ
  EXCLUDE_KEYWORDS : Option (List String)
  MIN_DISCOUNT_PERCENT : Option ℚ
deriving DecidableEq, Repr

/-- The repository's `Config` dataclass (src/config.py:14-54) defines none
of the attributes the filters read, so every access raises. -/
def repoConfig : ConfigAttrs :=
  ⟨none, none, none, none, none, none, none⟩

/-- A policy configuration that defines every threshold the filter reads. -/
structure Policy where
  MIN_PRICE : ℚ
  MAX_PRICE : ℚ
  PREMIUM_BRANDS : List String
  MAX_TIME_REMAINING_HOURS : ℚ
  MIN_BIDS : ℤ
  EXCLUDE_KEYWORDS : List String
  MIN_DISCOUNT_PERCENT : ℚ
deriving DecidableEq, Repr

/-- The attribute view of a full policy. -/
def Policy.attrs (p : Policy) : ConfigAttrs :=
  ⟨some p.MIN_PRICE, some p.MAX_PRICE, some p.PREMIUM_BRANDS,
   some p.MAX_TIME_REMAINING_HOURS, some p.MIN_BIDS,
   some p.EXCLUDE_KEYWORDS, some p.MIN_DISCOUNT_PERCENT⟩

/-- Python attribute lookup: raises `AttributeError` when absent. -/
def getAttr {α : Type} : Option α → Except String α
  | some v => .ok v
  | none => .error "AttributeError"

/-- `AuctionFilter._price_in_range` (src/filters.py:66-69); the chained
comparison reads `MAX_PRICE` only when the first bound holds. -/
def price_in_range (cfg : ConfigAttrs) (a : Auction) : Except String Bool := do
  let lo ← getAttr cfg.MIN_PRICE
  if lo ≤ a.currentPriceD then do
    let hi ← getAttr cfg.MAX_PRICE
    pure (decide (a.currentPriceD ≤ hi))
  else
    pure false

/-- `AuctionFilter._is_premium_brand` (src/filters.py:71-86): a truthy
brand must be a member of `PREMIUM_BRANDS`; otherwise the first premium
brand occurring in the lowercase title is backfilled onto the record. -/
def is_premium_brand (cfg : ConfigAttrs) (a : Auction) :
    Except String (Bool × Auction) :=
  if strTruthy a.brand then do
    let pbs ← getAttr cfg.PREMIUM_BRANDS
    pure (pbs.contains a.brandD, a)
  else do
    let pbs ← getAttr cfg.PREMIUM_BRANDS
    match pbs.find? (fun pb => strContains (strLower a.titleD) (strLower pb)) with
    | some pb => pure (true, { a with brand := some pb })
    | none => pure (false, a)

/-- `AuctionFilter._time_remaining_valid` (src/filters.py:88-91); the
chained comparison reads `MAX_TIME_REMAINING_HOURS` only when `0 < t`. -/
def time_remaining_valid (cfg : ConfigAttrs) (a : Auction) : Except String Bool := do
  let t := a.timeHoursD
  if 0 < t then do
    let mx ← getAttr cfg.MAX_TIME_REMAINING_HOURS
    pure (decide (t ≤ mx))
  else
    pure false

/-- `AuctionFilter._has_minimum_activity` (src/filters.py:93-96). -/
def has_minimum_activity (cfg : ConfigAttrs) (a : Auction) : Except String Bool := do
  let mb ← getAttr cfg.MIN_BIDS
  pure (decide (mb ≤ a.bidsD))

/-- `AuctionFilter._has_excluded_keywords` (src/filters.py:98-107). -/
def has_excluded_keywords (cfg : ConfigAttrs) (a : Auction) : Except String Bool := do
  let kws ← getAttr cfg.EXCLUDE_KEYWORDS
  pure (kws.any (fun k => strContains (strLower a.titleD) (strLower k)))

/-- The hard-coded highly desirable brand list of
`_alternative_value_check` (src/filters.py:130). -/
def hard_premium : List String := ["MacBook", "ThinkPad", "XPS", "Surface"]

/-- `AuctionFilter._alternative_value_check` (src/filters.py:123-139);
`pb in brand` is a case-sensitive substring test, and `MIN_BIDS` is read
only when `current_price <= 800`. -/
def alternative_value_check (cfg : ConfigAttrs) (a : Auction) : Except String Bool :=
  let cp := a.currentPriceD
  let bids := a.bidsD
  let brand := a.brandD
  if hard_premium.any (fun pb => strContains brand pb) &&
      decide (cp ≤ 1500) && decide (5 ≤ bids) then
    pure true
  else if cp ≤ 800 then do
    let mb ← getAttr cfg.MIN_BIDS
    pure (decide (mb ≤ bids))
  else
    pure false

/-- `AuctionFilter._has_good_discount` (src/filters.py:109-121): with a
truthy original price exceeding the current price, the discount percent is
stored on the record and compared against `MIN_DISCOUNT_PERCENT`;
otherwise the alternative value check decides. -/
def has_good_discount (cfg : ConfigAttrs) (a : Auction) :
    Except String (Bool × Auction) :=
  let cp := a.currentPriceD
  match a.original_price with
  | none => do
    let b ← alternative_value_check cfg a
    pure (b, a)
  | some op =>
    if op == 0 || decide (op ≤ cp) then do
      let b ← alternative_value_check cfg a
      pure (b, a)
    else
      let d := (op - cp) / op * 100
      let a' := { a with discount_percent := some d }
      do
        let mdp ← getAttr cfg.MIN_DISCOUNT_PERCENT
        pure (decide (mdp ≤ d), a')

/-- `AuctionFilter._is_auction_interesting` (src/filters.py:37-64):
the six-filter cascade, threaded through the in-place record updates of
filters 2 and 6. -/
def is_auction_interesting (cfg : ConfigAttrs) (a : Auction) :
    Except String (Bool × Auction) := do
  let p1 ← price_in_range cfg a
  if !p1 then pure (false, a) else do
  let r2 ← is_premium_brand cfg a
  let a2 := r2.2
  if !r2.1 then pure (false, a2) else do
  let p3 ← time_remaining_valid cfg a2
  if !p3 then pure (false, a2) else do
  let p4 ← has_minimum_activity cfg a2
  if !p4 then pure (false, a2) else do
  let p5 ← has_excluded_keywords cfg a2
  if p5 then pure (false, a2) else do
  has_good_discount cfg a2

/-- Brand bonus table of `_calculate_interest_score`
(src/filters.py:165-176), in insertion order; the first case-sensitive
substring match wins and at most one bonus applies. -/
def premium_bonus : List (String × ℚ) :=
  [("MacBook", 3), ("ThinkPad", 2), ("XPS", 2), ("Surface", 2), ("Alienware", 3)]

/-- Round-half-to-even on an exact rational (Python `round` semantics on
the real value). -/
def roundHalfEven (q : ℚ) : ℤ :=
  let n := ⌊q⌋
  if q - n < 1 / 2 then n
  else if 1 / 2 < q - n then n + 1
  else if n % 2 = 0 then n else n + 1

/-- `round(x, 2)`. -/
def round2 (q : ℚ) : ℚ := (roundHalfEven (q * 100) : ℚ) / 100

/-- `AuctionFilter._calculate_interest_score` (src/filters.py:141-187). -/
def calculate_interest_score (a : Auction) : ℚ :=
  let s1 : ℚ := if 0 < a.discountD then a.discountD / 10 else 0
  let s2 : ℚ := min ((a.bidsD : ℚ) / 2) 10
  let s3 : ℚ :=
    if a.timeHoursD ≤ 1 then 5
    else if a.timeHoursD ≤ 2 then 3
    else if a.timeHoursD ≤ 3 then 1
    else 0
  let s4 : ℚ :=
    match premium_bonus.find? (fun pr => strContains a.brandD pr.1) with
    | some pr => pr.2
    | none => 0
  let s5 : ℚ :=
    if a.currentPriceD ≤ 500 then 3
    else if a.currentPriceD ≤ 800 then 2
    else if a.currentPriceD ≤ 1200 then 1
    else 0
  round2 (s1 + s2 + s3 + s4 + s5)

/-- `AuctionFilter._get_filter_reasons` (src/filters.py:189-213).
The f-string number rendering of the Python source is abstracted by
`toString`; no claim depends on the rendering of a number. -/
def get_filter_reasons (cfg : ConfigAttrs) (a : Auction) :
    Except String (List String) := do
  let l1 : List String :=
    if strTruthy a.brand then ["Marca premium: " ++ a.brandD] else []
  let l2 : List String :=
    match a.discount_percent with
    | some d => if !(d == 0) && decide (0 < d) then ["Descuento: " ++ toString d] else []
    | none => []
  let mb ← getAttr cfg.MIN_BIDS
  let l3 : List String :=
    if mb ≤ a.bidsD then ["Actividad alta: " ++ toString a.bidsD ++ " pujas"] else []
  let l4 : List String := if a.timeHoursD ≤ 1 then ["¡Termina pronto!"] else []
  let l5 : List String := if a.currentPriceD ≤ 500 then ["Precio muy atractivo"] else []
  pure (l1 ++ l2 ++ l3 ++ l4 ++ l5)

/-- One iteration of the loop of `filter_interesting_auctions`
(src/filters.py:20-27), exceptions transparent: on an interesting record,
`filter_reason` and then `interest_score` are set and the enriched record
is produced. -/
def process_auction (cfg : ConfigAttrs) (a : Auction) :
    Except String (Option Auction) := do
  let r ← is_auction_interesting cfg a
  if r.1 then do
    let reasons ← get_filter_reasons cfg r.2
    let a' := { r.2 with filter_reason := some reasons }
    pure (some { a' with interest_score := some (calculate_interest_score a') })
  else
    pure none

/-- The collection loop of `filter_interesting_auctions`
(src/filters.py:20-29): the `except` clause turns any raised exception
into skipping that one record. -/
def interesting_auctions (cfg : ConfigAttrs) : List Auction → List Auction
  | [] => []
  | a :: rest =>
    match process_auction cfg a with
    | .ok (some b) => b :: interesting_auctions cfg rest
    | .ok none => interesting_auctions cfg rest
    | .error _ => interesting_auctions cfg rest

/-- Sort key of the final sort: `x.get('interest_score', 0)`. -/
def scoreKey (a : Auction) : ℚ := a.interest_score.getD 0

/-- `reverse=True` comparison of the stable sort: `x` may precede `y`
exactly when its score is at least `y`'s. -/
def scoreGE (x y : Auction) : Prop := scoreKey y ≤ scoreKey x

instance : DecidableRel scoreGE :=
  fun x y => (inferInstance : Decidable (scoreKey y ≤ scoreKey x))

instance : IsTotal Auction scoreGE :=
  ⟨fun x y => le_total (scoreKey y) (scoreKey x)⟩

instance : IsTrans Auction scoreGE :=
  ⟨fun _ _ _ h1 h2 => le_trans h2 h1⟩

/-- `AuctionFilter.filter_interesting_auctions` (src/filters.py:14-35):
collect the interesting records, then sort stably by descending score
(`list.sort(key=..., reverse=True)` is a stable descending sort, modelled
by insertion sort with `scoreGE`). -/
def filter_interesting_auctions (cfg : ConfigAttrs) (l : List Auction) : List Auction :=
  List.insertionSort scoreGE (interesting_auctions cfg l)

/-! Pure companions of the filter steps, specialised to a full `Policy`
(no attribute access can fail); each is proved equal to the faithful
`Except` embedding below. -/

/-- Pure `_price_in_range` under a full policy. -/
def price_ok (p : Policy) (a : Auction) : Bool :=
  decide (p.MIN_PRICE ≤ a.currentPriceD) && decide (a.currentPriceD ≤ p.MAX_PRICE)

/-- Pure `_is_premium_brand` under a full policy. -/
def premium_step (p : Policy) (a : Auction) : Bool × Auction :=
  if strTruthy a.brand then (p.PREMIUM_BRANDS.contains a.brandD, a)
  else
    match p.PREMIUM_BRANDS.find? (fun pb => strContains (strLower a.titleD) (strLower pb)) with
    | some pb => (true, { a with brand := some pb })
    | none => (false, a)

/-- Pure `_time_remaining_valid` under a full policy. -/
def time_ok (p : Policy) (a : Auction) : Bool :=
  decide (0 < a.timeHoursD) && decide (a.timeHoursD ≤ p.MAX_TIME_REMAINING_HOURS)

/-- Pure `_has_minimum_activity` under a full policy. -/
def activity_ok (p : Policy) (a : Auction) : Bool :=
  decide (p.MIN_BIDS ≤ a.bidsD)

/-- Pure `_has_excluded_keywords` under a full policy. -/
def excluded_kw (p : Policy) (a : Auction) : Bool :=
  p.EXCLUDE_KEYWORDS.any (fun k => strContains (strLower a.titleD) (strLower k))

/-- Pure `_alternative_value_check` under a full policy. -/
def alt_check (p : Policy) (a : Auction) : Bool :=
  (hard_premium.any (fun pb => strContains a.brandD pb) &&
     decide (a.currentPriceD ≤ 1500) && decide (5 ≤ a.bidsD)) ||
  (decide (a.currentPriceD ≤ 800) && decide (p.MIN_BIDS ≤ a.bidsD))

/-- Pure `_has_good_discount` under a full policy. -/
def discount_step (p : Policy) (a : Auction) : Bool × Auction :=
  match a.original_price with
  | none => (alt_check p a, a)
  | some op =>
    if op == 0 || decide (op ≤ a.currentPriceD) then (alt_check p a, a)
    else
      let d := (op - a.currentPriceD) / op * 100
      (decide (p.MIN_DISCOUNT_PERCENT ≤ d), { a with discount_percent := some d })

/-- Pure `_is_auction_interesting` under a full policy. -/
def interesting_pure (p : Policy) (a : Auction) : Bool × Auction :=
  if !price_ok p a then (false, a)
  else
    let r2 := premium_step p a
    if !r2.1 then (false, r2.2)
    else if !time_ok p r2.2 then (false, r2.2)
    else if !activity_ok p r2.2 then (false, r2.2)
    else if excluded_kw p r2.2 then (false, r2.2)
    else discount_step p r2.2

/-- Pure `_get_filter_reasons` under a full policy. -/
def reasons_pure (p : Policy) (a : Auction) : List String :=
  let l1 : List String :=
    if strTruthy a.brand then ["Marca premium: " ++ a.brandD] else []
  let l2 : List String :=
    match a.discount_percent with
    | some d => if !(d == 0) && decide (0 < d) then ["Descuento: " ++ toString d] else []
    | none => []
  let l3 : List String :=
    if p.MIN_BIDS ≤ a.bidsD then ["Actividad alta: " ++ toString a.bidsD ++ " pujas"] else []
  let l4 : List String := if a.timeHoursD ≤ 1 then ["¡Termina pronto!"] else []
  let l5 : List String := if a.currentPriceD ≤ 500 then ["Precio muy atractivo"] else []
  l1 ++ l2 ++ l3 ++ l4 ++ l5

/-- Pure per-record step of `filter_interesting_auctions` under a full
policy. -/
def process_pure (p : Policy) (a : Auction) : Option Auction :=
  let r := interesting_pure p a
  if r.1 then
    let a' := { r.2 with filter_reason := some (reasons_pure p r.2) }
    some { a' with interest_score := some (calculate_interest_score a') }
  else none

/-! Claim-side definitions: stated in the words of the specification's
claims, to be compared with the embedding. -/

/-- The alternative value clause of claim C3: brand contains a
highly-desirable entry with price at most 1500 and at least 5 bids, or
price at most 800 with at least `MIN_BIDS` bids. -/
def alt_clause (p : Policy) (a : Auction) : Prop :=
  (hard_premium.any (fun pb => strContains a.brandD pb) = true ∧
     a.currentPriceD ≤ 1500 ∧ 5 ≤ a.bidsD) ∨
  (a.currentPriceD ≤ 800 ∧ p.MIN_BIDS ≤ a.bidsD)

/-- The full predicate cascade of claim C3, read off a survivor record. -/
def cascade_holds (p : Policy) (a : Auction) : Prop :=
  (p.MIN_PRICE ≤ a.currentPriceD ∧ a.currentPriceD ≤ p.MAX_PRICE) ∧
  (∃ b, a.brand = some b ∧ b ∈ p.PREMIUM_BRANDS) ∧
  (0 < a.timeHoursD ∧ a.timeHoursD ≤ p.MAX_TIME_REMAINING_HOURS) ∧
  (p.MIN_BIDS ≤ a.bidsD) ∧
  (∀ k ∈ p.EXCLUDE_KEYWORDS, strContains (strLower a.titleD) (strLower k) = false) ∧
  (match a.original_price with
   | some op =>
     if a.currentPriceD < op then
       a.discount_percent = some ((op - a.currentPriceD) / op * 100) ∧
       p.MIN_DISCOUNT_PERCENT ≤ (op - a.currentPriceD) / op * 100
     else alt_clause p a
   | none => alt_clause p a)

/-- The interest-score formula of claim C4, read off a survivor record:
discount, capped bid activity, urgency tier, first brand bonus, price
tier, summed and rounded to 2 decimals. -/
def claim_score (a : Auction) : ℚ :=
  let s1 : ℚ := if 0 < a.discountD then a.discountD / 10 else 0
  let s2 : ℚ := min ((a.bidsD : ℚ) / 2) 10
  let s3 : ℚ :=
    if a.timeHoursD ≤ 1 then 5
    else if a.timeHoursD ≤ 2 then 3
    else if a.timeHoursD ≤ 3 then 1
    else 0
  let s4 : ℚ :=
    match premium_bonus.find? (fun pr => strContains a.brandD pr.1) with
    | some pr => pr.2
    | none => 0
  let s5 : ℚ :=
    if a.currentPriceD ≤ 500 then 3
    else if a.currentPriceD ≤ 800 then 2
    else if a.currentPriceD ≤ 1200 then 1
    else 0
  round2 (s1 + s2 + s3 + s4 + s5)

/-- Denylist phrases named by claim C5. -/
def c5_denylist : List String :=
  ["shop on ebay", "save this search", "sponsored", "advertisement"]

/-- A cleaned price string is numeric (Python `float` accepts it) iff it
has a digit and at most one dot. -/
def is_numeric_clean (cs : List Char) : Bool :=
  cs.any Char.isDigit && decide (cs.count '.' ≤ 1)

/-! Concrete data for the witness theorems. -/

/-- A policy with every threshold defined. -/
def wPol : Policy :=
  { MIN_PRICE := 100, MAX_PRICE := 1500, PREMIUM_BRANDS := ["MacBook"],
    MAX_TIME_REMAINING_HOURS := 48, MIN_BIDS := 3,
    EXCLUDE_KEYWORDS := ["broken"], MIN_DISCOUNT_PERCENT := 10 }

/-- A record that survives `wPol`. -/
def wIn : Auction :=
  { title := some "Apple MacBook Pro", current_price := some 450,
    bids := some 8, time_remaining_hours := some 2 }

/-- The enriched survivor `filter_interesting_auctions wPol.attrs [wIn]`
produces. -/
def wOut : Auction :=
  { title := some "Apple MacBook Pro", current_price := some 450,
    bids := some 8, time_remaining_hours := some 2,
    brand := some "MacBook",
    filter_reason := some ["Marca premium: MacBook", "Actividad alta: 8 pujas",
                           "Precio muy atractivo"],
    interest_score := some 13 }

/-! Theorems.  First a few computation rules for the `Except` embedding,
then the reduction of the filter under a full policy to its pure
companions, then the claim theorems. -/

@[simp] theorem getAttr_some {α : Type} (v : α) : getAttr (some v) = Except.ok v := rfl

@[simp] theorem getAttr_none {α : Type} :
    getAttr (none : Option α) = Except.error "AttributeError" := rfl

@[simp] theorem exc_ok_bind {α β : Type} (v : α) (k : α → Except String β) :
    Except.ok v >>= k = k v := rfl

@[simp] theorem exc_error_bind {α β : Type} (e : String) (k : α → Except String β) :
    (Except.error e : Except String α) >>= k = Except.error e := rfl

@[simp] theorem exc_pure {α : Type} (v : α) : (pure v : Except String α) = Except.ok v := rfl

theorem price_in_range_attrs (p : Policy) (a : Auction) :
    price_in_range p.attrs a = .ok (price_ok p a) := by
  unfold price_in_range price_ok Policy.attrs
  by_cases h : p.MIN_PRICE ≤ a.currentPriceD <;>
    simp [h]

theorem is_premium_brand_attrs (p : Policy) (a : Auction) :
    is_premium_brand p.attrs a = .ok (premium_step p a) := by
  unfold is_premium_brand premium_step Policy.attrs
  by_cases h : strTruthy a.brand = true
  · simp [h]
  · simp only [Bool.not_eq_true] at h
    simp only [h, if_neg, Bool.false_eq_true, not_false_eq_true, getAttr_some, exc_ok_bind]
    cases p.PREMIUM_BRANDS.find? (fun pb => strContains (strLower a.titleD) (strLower pb)) <;> simp

theorem time_remaining_valid_attrs (p : Policy) (a : Auction) :
    time_remaining_valid p.attrs a = .ok (time_ok p a) := by
  unfold time_remaining_valid time_ok Policy.attrs
  by_cases h : 0 < a.timeHoursD <;> simp [h]

theorem has_minimum_activity_attrs (p : Policy) (a : Auction) :
    has_minimum_activity p.attrs a = .ok (activity_ok p a) := by
  unfold has_minimum_activity activity_ok Policy.attrs
  simp

theorem has_excluded_keywords_attrs (p : Policy) (a : Auction) :
    has_excluded_keywords p.attrs a = .ok (excluded_kw p a) := by
  unfold has_excluded_keywords excluded_kw Policy.attrs
  simp

theorem alternative_value_check_attrs (p : Policy) (a : Auction) :
    alternative_value_check p.attrs a = .ok (alt_check p a) := by
  unfold alternative_value_check alt_check Policy.attrs
  by_cases h1 : (hard_premium.any (fun pb => strContains a.brandD pb) &&
      decide (a.currentPriceD ≤ 1500) && decide (5 ≤ a.bidsD)) = true
  · simp [h1]
  · by_cases h2 : a.currentPriceD ≤ 800 <;>
      simp [h1, h2]

theorem has_good_discount_attrs (p : Policy) (a : Auction) :
    has_good_discount p.attrs a = .ok (discount_step p a) := by
  unfold has_good_discount discount_step
  cases a.original_price with
  | none =>
    dsimp only
    rw [alternative_value_check_attrs]
    simp
  | some op =>
    dsimp only
    by_cases h : (op == 0 || decide (op ≤ a.currentPriceD)) = true
    · rw [if_pos h, if_pos h, alternative_value_check_attrs]
      simp
    · rw [if_neg h, if_neg h]
      simp [Policy.attrs]

theorem is_auction_interesting_attrs (p : Policy) (a : Auction) :
    is_auction_interesting p.attrs a = .ok (interesting_pure p a) := by
  unfold is_auction_interesting interesting_pure
  rw [price_in_range_attrs]
  by_cases h1 : price_ok p a = true
  · simp only [h1, Bool.not_true, exc_ok_bind, Bool.false_eq_true, if_false]
    rw [is_premium_brand_attrs]
    by_cases h2 : (premium_step p a).1 = true
    · simp only [h2, Bool.not_true, exc_ok_bind, Bool.false_eq_true, if_false]
      rw [time_remaining_valid_attrs]
      by_cases h3 : time_ok p (premium_step p a).2 = true
      · simp only [h3, Bool.not_true, exc_ok_bind, Bool.false_eq_true, if_false]
        rw [has_minimum_activity_attrs]
        by_cases h4 : activity_ok p (premium_step p a).2 = true
        · simp only [h4, Bool.not_true, exc_ok_bind, Bool.false_eq_true, if_false]
          rw [has_excluded_keywords_attrs]
          by_cases h5 : excluded_kw p (premium_step p a).2 = true
          · simp [h5]
          · simp only [Bool.not_eq_true] at h5
            simp [h5, has_good_discount_attrs]
        · simp only [Bool.not_eq_true] at h4
          simp [h4]
      · simp only [Bool.not_eq_true] at h3
        simp [h3]
    · simp only [Bool.not_eq_true] at h2
      simp [h2]
  · simp only [Bool.not_eq_true] at h1
    simp [h1]

theorem get_filter_reasons_attrs (p : Policy) (a : Auction) :
    get_filter_reasons p.attrs a = .ok (reasons_pure p a) := by
  unfold get_filter_reasons reasons_pure Policy.attrs
  simp

theorem process_auction_attrs (p : Policy) (a : Auction) :
    process_auction p.attrs a = .ok (process_pure p a) := by
  unfold process_auction process_pure
  rw [is_auction_interesting_attrs]
  by_cases h : (interesting_pure p a).1 = true
  · simp [h, get_filter_reasons_attrs]
  · simp only [Bool.not_eq_true] at h
    simp [h]

theorem interesting_auctions_attrs (p : Policy) (l : List Auction) :
    interesting_auctions p.attrs l = l.filterMap (process_pure p) := by
  induction l with
  | nil => rfl
  | cons a rest ih =>
    unfold interesting_auctions
    rw [process_auction_attrs]
    cases h : process_pure p a <;> simp [h, ih, List.filterMap_cons]

/-! Stability and order of the final sort. -/

theorem filter_orderedInsert (c : ℚ) (a : Auction) (l : List Auction) :
    (List.orderedInsert scoreGE a l).filter (fun x => decide (scoreKey x = c)) =
      if scoreKey a = c then
        a :: l.filter (fun x => decide (scoreKey x = c))
      else l.filter (fun x => decide (scoreKey x = c)) := by
  induction l with
  | nil =>
    by_cases h : scoreKey a = c <;> simp [List.orderedInsert, h]
  | cons b l ih =>
    by_cases hr : scoreGE a b
    · by_cases h : scoreKey a = c <;>
        simp [List.orderedInsert, hr, h]
    · have hab : scoreKey a < scoreKey b := lt_of_not_le hr
      by_cases h : scoreKey a = c
      · have hb : ¬ scoreKey b = c := by
          intro hbc; rw [h] at hab; rw [hbc] at hab; exact lt_irrefl _ hab
        simp [List.orderedInsert, hr, h, hb, ih]
      · by_cases hb : scoreKey b = c <;>
          simp [List.orderedInsert, hr, h, hb, ih]

theorem filter_insertionSort (c : ℚ) (l : List Auction) :
    (List.insertionSort scoreGE l).filter (fun x => decide (scoreKey x = c)) =
      l.filter (fun x => decide (scoreKey x = c)) := by
  induction l with
  | nil => rfl
  | cons a l ih =>
    rw [List.insertionSort, filter_orderedInsert]
    by_cases h : scoreKey a = c <;> simp [h, ih]

/-- Claim C7: the sequence returned by `filter_interesting_auctions` is
sorted by `interest_score` in descending order, and for every score value
the survivors carrying that score appear in the same relative order as in
the pre-sort pass over the input (`interesting_auctions`, which walks the
input in order) — the sort is stable. -/
theorem C7_sorted_stable (cfg : ConfigAttrs) (l : List Auction) :
    List.Sorted scoreGE (filter_interesting_auctions cfg l) ∧
    ∀ c : ℚ,
      (filter_interesting_auctions cfg l).filter (fun x => decide (scoreKey x = c)) =
        (interesting_auctions cfg l).filter (fun x => decide (scoreKey x = c)) :=
  ⟨List.sorted_insertionSort scoreGE _, fun c => filter_insertionSort c _⟩

/-- Claim C1: with the repository's `Config`, the first predicate's read of
`MIN_PRICE` raises `AttributeError` on every record, the per-record
handler catches it and drops the record, so the filter returns the empty
list on every input. -/
theorem C1_repo_config_filters_everything :
    (∀ a : Auction, is_auction_interesting repoConfig a = .error "AttributeError") ∧
    (∀ a : Auction, price_in_range repoConfig a = .error "AttributeError") ∧
    ∀ l : List Auction, filter_interesting_auctions repoConfig l = [] := by
  have hp : ∀ a : Auction, price_in_range repoConfig a = .error "AttributeError" := by
    intro a
    unfold price_in_range repoConfig
    simp
  have hi : ∀ a : Auction, is_auction_interesting repoConfig a = .error "AttributeError" := by
    intro a
    unfold is_auction_interesting
    rw [hp]
    simp
  have hinteresting : ∀ l : List Auction, interesting_auctions repoConfig l = [] := by
    intro l
    induction l with
    | nil => rfl
    | cons a rest ih =>
      unfold interesting_auctions
      have : process_auction repoConfig a = .error "AttributeError" := by
        unfold process_auction
        rw [hi]
        simp
      rw [this]
      exact ih
  exact ⟨hi, hp, fun l => by
    unfold filter_interesting_auctions
    rw [hinteresting]
    rfl⟩

/-- Claim C2, counterexample: the claim asserts that every input in which
no unit matches returns the sentinel `999.0`, but on `"Buy It Now"` (no
unit matches) the code accumulates nothing and returns `0.0`: the `999.0`
branch only runs when an exception is raised, which cannot happen on a
string input. -/
theorem C2_counterexample :
    parse_time_remaining "Buy It Now" = 0 ∧
    ¬ parse_time_remaining "Buy It Now" = 999 := by
  have h : parse_time_remaining "Buy It Now" = 0 := by
    simp only [parse_time_remaining]
    rw [show scanUnit 'd' none (strLower "Buy It Now").toList = none from by decide,
        show scanUnit 'h' none (strLower "Buy It Now").toList = none from by decide,
        show scanUnit 'm' none (strLower "Buy It Now").toList = none from by decide]
    norm_num
  exact ⟨h, by rw [h]; norm_num⟩

/-- Claim C2 as amended: `parse_time_remaining` is total, case-insensitive,
returns `24*d + h + m/60` hours from the first integers found immediately
before the letters `d`, `h`, `m` (absent units contribute zero), so
`parse("2d 3h 30m") = 51.5` and `parse("5h") = 5.0`; and for every input
in which no unit matches it returns `0.0` (not the `999.0` sentinel, which
is returned only when an exception is raised). -/
theorem C2_duration_behaviour :
    parse_time_remaining "2d 3h 30m" = 51.5 ∧
    parse_time_remaining "5h" = 5 ∧
    ∀ s : String,
      scanUnit 'd' none (strLower s).toList = none →
      scanUnit 'h' none (strLower s).toList = none →
      scanUnit 'm' none (strLower s).toList = none →
      parse_time_remaining s = 0 := by
  refine ⟨?_, ?_, ?_⟩
  · simp only [parse_time_remaining]
    rw [show scanUnit 'd' none (strLower "2d 3h 30m").toList = some 2 from by decide,
        show scanUnit 'h' none (strLower "2d 3h 30m").toList = some 3 from by decide,
        show scanUnit 'm' none (strLower "2d 3h 30m").toList = some 30 from by decide]
    norm_num
  · simp only [parse_time_remaining]
    rw [show scanUnit 'd' none (strLower "5h").toList = none from by decide,
        show scanUnit 'h' none (strLower "5h").toList = some 5 from by decide,
        show scanUnit 'm' none (strLower "5h").toList = none from by decide]
    norm_num
  · intro s hd hh hm
    simp only [parse_time_remaining]
    rw [hd, hh, hm]
    norm_num

/-- Witness for C2 at the concrete input `"Buy It Now"`. -/
theorem C2_witness :
    scanUnit 'd' none (strLower "Buy It Now").toList = none ∧
    scanUnit 'h' none (strLower "Buy It Now").toList = none ∧
    scanUnit 'm' none (strLower "Buy It Now").toList = none ∧
    parse_time_remaining "Buy It Now" = 0 :=
  ⟨by decide, by decide, by decide,
    C2_duration_behaviour.2.2 "Buy It Now" (by decide) (by decide) (by decide)⟩

/-- Evaluation of the per-record step on the witness data. -/
theorem wEval : process_pure wPol wIn = some wOut := by
  have h1 : strContains (strLower "Apple MacBook Pro") (strLower "MacBook") = true := by decide
  have h2 : strContains (strLower "Apple MacBook Pro") (strLower "broken") = false := by decide
  have h3 : strContains "MacBook" "MacBook" = true := by decide
  have h4 : toString (8:ℤ) = "8" := by decide
  norm_num [process_pure, interesting_pure, price_ok, premium_step, time_ok,
    activity_ok, excluded_kw, discount_step, alt_check, reasons_pure,
    calculate_interest_score, round2, roundHalfEven, premium_bonus, hard_premium,
    wPol, wIn, wOut, Auction.currentPriceD, Auction.bidsD, Auction.timeHoursD,
    Auction.titleD, Auction.brandD, Auction.discountD, strTruthy, h1, h2, h3, h4,
    min_def]
  decide

/-- Evaluation of the whole filter on the witness data. -/
theorem wFilterEval : filter_interesting_auctions wPol.attrs [wIn] = [wOut] := by
  unfold filter_interesting_auctions
  rw [interesting_auctions_attrs]
  rw [show ([wIn].filterMap (process_pure wPol)) = [wOut] by
    simp [List.filterMap_cons, wEval]]
  rfl

/-- First-match characterisation of `List.find?`. -/
theorem find?_first {α : Type} (p : α → Bool) :
    ∀ (l : List α) (b : α),
      l.find? p = some b ↔
        p b = true ∧ ∃ l1 l2, l = l1 ++ b :: l2 ∧ ∀ x ∈ l1, p x = false := by
  intro l
  induction l with
  | nil =>
    intro b
    simp
  | cons a l ih =>
    intro b
    cases ha : p a with
    | true =>
      rw [List.find?_cons_of_pos _ ha]
      constructor
      · intro h
        injection h with h
        subst h
        exact ⟨ha, [], l, rfl, by simp⟩
      · rintro ⟨hb, l1, l2, hdec, hfalse⟩
        cases l1 with
        | nil =>
          simp only [List.nil_append, List.cons.injEq] at hdec
          rw [hdec.1]
        | cons c l1 =>
          simp only [List.cons_append, List.cons.injEq] at hdec
          have : p a = false := hdec.1 ▸ hfalse c (by simp)
          rw [this] at ha
          cases ha
    | false =>
      rw [List.find?_cons_of_neg _ (by simp [ha])]
      rw [ih b]
      constructor
      · rintro ⟨hb, l1, l2, hdec, hfalse⟩
        exact ⟨hb, a :: l1, l2, by rw [hdec]; rfl, by
          intro x hx
          rcases List.mem_cons.mp hx with h | h
          · rw [h, ha]
          · exact hfalse x h⟩
      · rintro ⟨hb, l1, l2, hdec, hfalse⟩
        cases l1 with
        | nil =>
          simp only [List.nil_append, List.cons.injEq] at hdec
          rw [hdec.1] at ha
          rw [ha] at hb
          cases hb
        | cons c l1 =>
          simp only [List.cons_append, List.cons.injEq] at hdec
          exact ⟨hb, l1, l2, hdec.2, fun x hx => hfalse x (by simp [hx])⟩

/-- Claim C9: `extract_brand` returns the first entry of the fixed brand
vocabulary (in declared order) that occurs case-insensitively as a
substring of the title, and nothing when none occurs; in particular
`extract_brand "Apple MacBook Pro 16" = some "MacBook"`, not `"Apple"`. -/
theorem C9_brand_detector :
    extract_brand "Apple MacBook Pro 16" = some "MacBook" ∧
    (∀ (t b : String),
      extract_brand t = some b ↔
        strContains (strLower t) (strLower b) = true ∧
        ∃ l1 l2, brands = l1 ++ b :: l2 ∧
          ∀ b' ∈ l1, strContains (strLower t) (strLower b') = false) ∧
    (∀ t : String,
      extract_brand t = none ↔
        ∀ b ∈ brands, strContains (strLower t) (strLower b) = false) := by
  refine ⟨by decide, ?_, ?_⟩
  · intro t b
    unfold extract_brand
    exact find?_first _ brands b
  · intro t
    unfold extract_brand
    rw [List.find?_eq_none]
    simp

/-- The empty string occurs in every string (Python `'' in s` is `True`);
this makes the final `''` entry of `invalid_titles` match every title. -/
theorem strContains_empty (h : String) : strContains h "" = true := by
  unfold strContains
  cases h.toList <;> simp [segOccurs, List.isPrefixOf]

/-- Because `invalid_titles` ends with `''`, the denylist check succeeds on
every title, so `_parse_auction_item` yields no record for any fragment. -/
theorem parse_auction_item_none (now : ℕ) (f : Fragment) :
    parse_auction_item now f = none := by
  unfold parse_auction_item
  cases f.titleText with
  | none => rfl
  | some t =>
    have hany : invalid_titles.any (fun inv => strContains (strLower t) inv) = true := by
      simp [invalid_titles, strContains_empty]
    simp [hany]

/-- A successful `acceptId` result is all digits and at least 8 long. -/
theorem acceptId_spec (r : Option (List Char)) (i : String)
    (h : acceptId r = some i) :
    i.toList.all Char.isDigit = true ∧ 8 ≤ i.length := by
  cases r with
  | none => cases h
  | some run =>
    unfold acceptId at h
    dsimp only at h
    by_cases hc : (run.all Char.isDigit && 8 ≤ run.length : Bool) = true
    · rw [if_pos hc] at h
      injection h with h
      subst h
      simp only [Bool.and_eq_true, decide_eq_true_eq] at hc
      exact ⟨hc.1, by simpa [String.length] using hc.2⟩
    · rw [if_neg hc] at h
      cases h

/-- A successful `extract_ebay_id` comes from a URL containing `ebay.com`
and is an all-digits identifier of length at least 8. -/
theorem extract_ebay_id_spec (u i : String) (h : extract_ebay_id u = some i) :
    strContains (strLower u) "ebay.com" = true ∧
    i.toList.all Char.isDigit = true ∧ 8 ≤ i.length := by
  unfold extract_ebay_id at h
  by_cases he : strContains (strLower u) "ebay.com" = true
  · rw [if_neg (by simp [he])] at h
    dsimp only at h
    refine ⟨he, ?_⟩
    rcases h1 : acceptId (searchRun "/itm/".toList itmKeep 1 u.toList) with _ | v
    · rw [h1] at h
      simp only [Option.none_orElse] at h
      rcases h2 : acceptId (searchRun "item=".toList Char.isDigit 1 u.toList) with _ | v
      · rw [h2] at h
        simp only [Option.none_orElse] at h
        rcases h3 : acceptId (searchRun "/".toList Char.isDigit 12 u.toList) with _ | v
        · rw [h3] at h
          simp only [Option.none_orElse] at h
          exact acceptId_spec _ _ h
        · rw [h3] at h
          simp only [Option.some_orElse] at h
          injection h with h
          subst h
          exact acceptId_spec _ _ h3
      · rw [h2] at h
        simp only [Option.some_orElse] at h
        injection h with h
        subst h
        exact acceptId_spec _ _ h2
    · rw [h1] at h
      simp only [Option.some_orElse] at h
      injection h with h
      subst h
      exact acceptId_spec _ _ h1
  · rw [if_pos (by simp [he])] at h
    cases h

/-- Claim C5: the listing extractor yields no record whenever the title
does not resolve, the title is empty or contains a denylist phrase, the
link does not resolve, the URL yields no identifier, the price does not
resolve, or the price text fails the price parser; a successful
identifier always comes from a URL containing `ebay.com` and is all
digits with at least 8 characters, and `".../itm/123"` (3 digits) yields
no identifier; a fragment titled `"Shop on eBay"` yields no record. -/
theorem C5_extractor_failures :
    (∀ (now : ℕ) (f : Fragment), f.titleText = none → parse_auction_item now f = none) ∧
    (∀ (now : ℕ) (f : Fragment) (t : String), f.titleText = some t →
      (t = "" ∨ ∃ d ∈ c5_denylist, strContains (strLower t) d = true) →
      parse_auction_item now f = none) ∧
    (∀ (now : ℕ) (f : Fragment), f.linkHref = none → parse_auction_item now f = none) ∧
    (∀ (now : ℕ) (f : Fragment) (u : String), f.linkHref = some u →
      extract_ebay_id u = none → parse_auction_item now f = none) ∧
    (∀ (now : ℕ) (f : Fragment), f.priceText = none → parse_auction_item now f = none) ∧
    (∀ (now : ℕ) (f : Fragment) (pt : String), f.priceText = some pt →
      parse_price pt = none → parse_auction_item now f = none) ∧
    (∀ (u i : String), extract_ebay_id u = some i →
      strContains (strLower u) "ebay.com" = true ∧
      i.toList.all Char.isDigit = true ∧ 8 ≤ i.length) ∧
    extract_ebay_id "https://www.ebay.com/itm/123" = none ∧
    (∀ (now : ℕ) (f : Fragment), f.titleText = some "Shop on eBay" →
      parse_auction_item now f = none) :=
  ⟨fun now f _ => parse_auction_item_none now f,
   fun now f _ _ _ => parse_auction_item_none now f,
   fun now f _ => parse_auction_item_none now f,
   fun now f _ _ _ => parse_auction_item_none now f,
   fun now f _ => parse_auction_item_none now f,
   fun now f _ _ _ => parse_auction_item_none now f,
   extract_ebay_id_spec,
   by decide,
   fun now f _ => parse_auction_item_none now f⟩

/-- Witness for C5 at a concrete fragment and URL. -/
theorem C5_witness :
    ({ titleText := some "Shop on eBay" } : Fragment).titleText = some "Shop on eBay" ∧
    parse_auction_item 0 { titleText := some "Shop on eBay" } = none ∧
    extract_ebay_id "https://www.ebay.com/itm/87654321" = some "87654321" ∧
    (strContains (strLower "https://www.ebay.com/itm/87654321") "ebay.com" = true ∧
      "87654321".toList.all Char.isDigit = true ∧ 8 ≤ "87654321".length) :=
  ⟨rfl,
   C5_extractor_failures.2.2.2.2.2.2.2.2 0 { titleText := some "Shop on eBay" } rfl,
   by decide,
   C5_extractor_failures.2.2.2.2.2.2.1 "https://www.ebay.com/itm/87654321" "87654321"
     (by decide)⟩

/-- The collection loop distributes over list append. -/
theorem interesting_auctions_append (cfg : ConfigAttrs) (l1 l2 : List Auction) :
    interesting_auctions cfg (l1 ++ l2) =
      interesting_auctions cfg l1 ++ interesting_auctions cfg l2 := by
  induction l1 with
  | nil => rfl
  | cons a rest ih =>
    simp only [List.cons_append, interesting_auctions]
    cases hp : process_auction cfg a with
    | error e => simp only [hp]; exact ih
    | ok v =>
      cases v with
      | none => simp only [hp]; exact ih
      | some b =>
        simp only [hp, List.append_eq]
        rw [ih]
        rfl

/-- Claim C6: a failure while processing one item never aborts the batch:
a fragment whose processing raises yields no record while all other
fragments are still processed, and a record whose filter evaluation
raises is excluded while the rest of the batch is still filtered. -/
theorem C6_failure_isolation (now : ℕ) (xs ys : List FragmentInput) (e : String)
    (cfg : ConfigAttrs) (zs ws : List Auction) (a : Auction) (msg : String)
    (h : process_auction cfg a = .error msg) :
    search_auctions now (xs ++ .raises e :: ys) =
      search_auctions now xs ++ search_auctions now ys ∧
    interesting_auctions cfg (zs ++ a :: ws) =
      interesting_auctions cfg zs ++ interesting_auctions cfg ws := by
  constructor
  · unfold search_auctions
    rw [List.filterMap_append, List.filterMap_cons]
    rfl
  · rw [interesting_auctions_append]
    congr 1
    simp only [interesting_auctions, h]

/-- Witness for C6: an empty record errors under the repository config. -/
theorem C6_witness :
    process_auction repoConfig {} = .error "AttributeError" ∧
    search_auctions 0 ([.ok {}] ++ .raises "boom" :: [.ok {}]) =
      search_auctions 0 [.ok {}] ++ search_auctions 0 [.ok {}] ∧
    interesting_auctions repoConfig ([] ++ ({} : Auction) :: []) =
      interesting_auctions repoConfig [] ++ interesting_auctions repoConfig [] := by
  have h : process_auction repoConfig {} = .error "AttributeError" := by
    unfold process_auction is_auction_interesting price_in_range repoConfig
    simp
  exact ⟨h,
    (C6_failure_isolation 0 [.ok {}] [.ok {}] "boom" repoConfig [] [] {} "AttributeError" h).1,
    (C6_failure_isolation 0 [.ok {}] [.ok {}] "boom" repoConfig [] [] {} "AttributeError" h).2⟩

/-- `split_dot` splits at the first dot: characterisation of both
outcomes. -/
theorem split_dot_spec (cs : List Char) :
    (∀ a, split_dot cs = (a, none) → cs = a ∧ '.' ∉ a) ∧
    (∀ a r, split_dot cs = (a, some r) → cs = a ++ '.' :: r ∧ '.' ∉ a) := by
  induction cs with
  | nil =>
    refine ⟨?_, ?_⟩
    · intro a h
      simp only [split_dot, Prod.mk.injEq] at h
      obtain ⟨h1, -⟩ := h
      subst h1
      simp
    · intro a r h
      simp only [split_dot, Prod.mk.injEq] at h
      exact absurd h.2 (by simp)
  | cons c cs ih =>
    by_cases hc : c = '.'
    · subst hc
      refine ⟨?_, ?_⟩
      · intro a h
        simp only [split_dot, beq_self_eq_true, if_true, Prod.mk.injEq] at h
        exact absurd h.2 (by simp)
      · intro a r h
        simp only [split_dot, beq_self_eq_true, if_true, Prod.mk.injEq] at h
        obtain ⟨h1, h2⟩ := h
        injection h2 with h2
        subst h1
        subst h2
        exact ⟨rfl, by simp⟩
    · have hcb : (c == '.') = false := by simpa using hc
      rcases hs : split_dot cs with ⟨a', r'⟩
      refine ⟨?_, ?_⟩
      · intro a h
        simp only [split_dot, hcb, Bool.false_eq_true, if_false, hs, Prod.mk.injEq] at h
        obtain ⟨h1, h2⟩ := h
        obtain ⟨hcs, hna⟩ := (ih.1) a' (by rw [hs, h2])
        subst h1
        constructor
        · rw [hcs]
        · simp only [List.mem_cons, not_or]
          exact ⟨fun hh => hc hh.symm, hna⟩
      · intro a r h
        simp only [split_dot, hcb, Bool.false_eq_true, if_false, hs, Prod.mk.injEq] at h
        obtain ⟨h1, h2⟩ := h
        obtain ⟨hcs, hna⟩ := (ih.2) a' r (by rw [hs, h2])
        subst h1
        constructor
        · rw [hcs]
          rfl
        · simp only [List.mem_cons, not_or]
          exact ⟨fun hh => hc hh.symm, hna⟩

/-- Every character of a cleaned price string is a digit or a dot. -/
theorem clean_chars_domain (s : String) :
    ∀ c ∈ clean_chars s, c.isDigit = true ∨ c = '.' := by
  intro c hc
  unfold clean_chars at hc
  have h2 := List.mem_filter.mp hc
  have h1 := List.mem_filter.mp h2.1
  have hkeep : priceKeep c = true := h1.2
  have hnc : (c == ',') = false := by
    have := h2.2
    simpa using this
  unfold priceKeep at hkeep
  by_cases hd : c.isDigit = true
  · exact Or.inl hd
  · rw [Bool.not_eq_true] at hd
    rw [hd] at hkeep
    simp only [Bool.false_or] at hkeep
    cases hdot : (c == '.') with
    | true => exact Or.inr (by simpa using hdot)
    | false =>
      rw [hdot] at hkeep
      simp only [Bool.false_or] at hkeep
      rw [hkeep] at hnc
      cases hnc

/-- If the cleaned price string is not numeric (no digit, or more than one
dot), `float_of_clean` refuses it. -/
theorem float_of_clean_not_numeric (cs : List Char)
    (hdom : ∀ c ∈ cs, c.isDigit = true ∨ c = '.')
    (h : is_numeric_clean cs = false) :
    float_of_clean cs = none := by
  unfold is_numeric_clean at h
  rcases Bool.and_eq_false_iff.mp h with h | h
  · -- no digit: every character is a dot
    have hall : ∀ c ∈ cs, c = '.' := by
      intro c hc
      rcases hdom c hc with hd | hd
      · exfalso
        have : cs.any Char.isDigit = true := List.any_eq_true.mpr ⟨c, hc, hd⟩
        rw [this] at h
        cases h
      · exact hd
    unfold float_of_clean
    rcases hs : split_dot cs with ⟨a, r⟩
    cases r with
    | none =>
      obtain ⟨hcs, hna⟩ := (split_dot_spec cs).1 a hs
      cases a with
      | nil => simp
      | cons x xs =>
        exfalso
        exact hna (hall '.' (by rw [hcs]; exact (hall x (by rw [hcs]; simp)) ▸ (by simp)) ▸
          (by rw [← hall x (by rw [hcs]; simp)]; simp))
    | some fp =>
      obtain ⟨hcs, hna⟩ := (split_dot_spec cs).2 a fp hs
      have ha : a = [] := by
        cases a with
        | nil => rfl
        | cons x xs =>
          exfalso
          have : x = '.' := hall x (by rw [hcs]; simp)
          exact hna (this ▸ (by simp))
      subst ha
      cases fp with
      | nil => simp
      | cons y ys =>
        have hy : y = '.' := hall y (by rw [hcs]; simp)
        subst hy
        have : (('.' : Char) :: ys).contains '.' = true := by simp
        simp [this]
  · -- at least two dots
    have hcount : 2 ≤ cs.count '.' := by
      by_contra hlt
      push_neg at hlt
      have : cs.count '.' ≤ 1 := by omega
      simp [this] at h
    unfold float_of_clean
    rcases hs : split_dot cs with ⟨a, r⟩
    cases r with
    | none =>
      exfalso
      obtain ⟨hcs, hna⟩ := (split_dot_spec cs).1 a hs
      have : cs.count '.' = 0 := List.count_eq_zero.mpr (hcs ▸ hna)
      omega
    | some fp =>
      obtain ⟨hcs, hna⟩ := (split_dot_spec cs).2 a fp hs
      have hca : a.count '.' = 0 := List.count_eq_zero.mpr hna
      have : cs.count '.' = a.count '.' + (1 + fp.count '.') := by
        rw [hcs]
        simp [List.count_append, List.count_cons]
        omega
      have hfp : 0 < fp.count '.' := by omega
      have hmem : '.' ∈ fp := List.count_pos_iff.mp hfp
      simp [hs, hmem]

/-- Claim C8: `parse_price` keeps only digits, dots and commas, removes
the commas, and parses the remainder as a decimal number; it returns
nothing when the cleaned string is empty or not numeric; in particular
`parse("$1,234.56") = 1234.56` while `parse("Free")` and `parse("")`
return nothing. -/
theorem C8_price_parsing :
    parse_price "$1,234.56" = some (1234.56 : ℚ) ∧
    parse_price "Free" = none ∧
    parse_price "" = none ∧
    (∀ s : String, parse_price s = parse_price (String.mk (clean_chars s))) ∧
    (∀ s : String, clean_chars s = [] → parse_price s = none) ∧
    (∀ s : String, is_numeric_clean (clean_chars s) = false → parse_price s = none) := by
  refine ⟨?_, by decide, by decide, ?_, ?_, ?_⟩
  · have h1 : clean_chars "$1,234.56" = "1234.56".toList := by decide
    have h2 : split_dot ['1','2','3','4','.','5','6'] =
        (['1','2','3','4'], some ['5','6']) := by decide
    have h3 : ("1234.56".toList).isEmpty = false := by decide
    have h4 : ('.' : Char) ∉ (['5','6'] : List Char) := by decide
    have h5 : digitsVal ['1','2','3','4'] = 1234 := by decide
    have h6 : digitsVal ['5','6'] = 56 := by decide
    norm_num [parse_price, float_of_clean, h1, h2, h3, h4, h5, h6]
  · intro s
    have hsub : clean_chars (String.mk (clean_chars s)) = clean_chars s := by
      have hmem : ∀ c ∈ clean_chars s, priceKeep c = true ∧ (c == ',') = false := by
        intro c hc
        unfold clean_chars at hc
        have h2 := List.mem_filter.mp hc
        have h1 := List.mem_filter.mp h2.1
        refine ⟨h1.2, by simpa using h2.2⟩
      show ((String.mk (clean_chars s)).toList.filter priceKeep).filter
          (fun c => !(c == ',')) = clean_chars s
      rw [show (String.mk (clean_chars s)).toList = clean_chars s from rfl]
      rw [List.filter_eq_self.mpr (fun c hc => (hmem c hc).1)]
      exact List.filter_eq_self.mpr (fun c hc => by simp [(hmem c hc).2])
    show (if (clean_chars s).isEmpty then none else float_of_clean (clean_chars s)) =
      (if (clean_chars (String.mk (clean_chars s))).isEmpty then none
       else float_of_clean (clean_chars (String.mk (clean_chars s))))
    rw [hsub]
  · intro s h
    unfold parse_price
    rw [h]
    rfl
  · intro s h
    unfold parse_price
    by_cases he : (clean_chars s).isEmpty
    · rw [if_pos he]
    · rw [if_neg he]
      exact float_of_clean_not_numeric _ (clean_chars_domain s) h

/-! Structural analysis of a successful filter pass. -/

/-- A passed premium-brand step leaves a record whose brand is set and a
member of the premium list. -/
theorem premium_step_true (p : Policy) (x a2 : Auction)
    (h : premium_step p x = (true, a2)) :
    ∃ s, a2.brand = some s ∧ s ∈ p.PREMIUM_BRANDS := by
  unfold premium_step at h
  by_cases ht : strTruthy x.brand = true
  · rw [if_pos ht] at h
    simp only [Prod.mk.injEq] at h
    obtain ⟨hmem, ha2⟩ := h
    cases hb : x.brand with
    | none => rw [hb] at ht; cases ht
    | some s =>
      refine ⟨s, by rw [← ha2, hb], ?_⟩
      have hbd : x.brandD = s := by simp [Auction.brandD, hb]
      rw [hbd] at hmem
      simpa using hmem
  · rw [if_neg ht] at h
    cases hf : p.PREMIUM_BRANDS.find?
        (fun pb => strContains (strLower x.titleD) (strLower pb)) with
    | none =>
      rw [hf] at h
      simp at h
    | some pb =>
      rw [hf] at h
      simp only [Prod.mk.injEq] at h
      exact ⟨pb, by rw [← h.2], List.mem_of_find?_eq_some hf⟩

/-- The premium step only ever touches the `brand` field. -/
theorem premium_step_snd (p : Policy) (x : Auction) :
    (premium_step p x).2 = x ∨
    ∃ pb, (premium_step p x).2 = { x with brand := some pb } := by
  unfold premium_step
  by_cases ht : strTruthy x.brand = true
  · rw [if_pos ht]
    exact Or.inl rfl
  · rw [if_neg ht]
    cases hf : p.PREMIUM_BRANDS.find?
        (fun pb => strContains (strLower x.titleD) (strLower pb)) with
    | none => exact Or.inl rfl
    | some pb => exact Or.inr ⟨pb, rfl⟩

/-- The discount step only ever touches the `discount_percent` field. -/
theorem discount_step_snd (p : Policy) (x : Auction) :
    (discount_step p x).2 = x ∨
    ∃ d, (discount_step p x).2 = { x with discount_percent := some d } := by
  unfold discount_step
  cases ho : x.original_price with
  | none => exact Or.inl rfl
  | some op =>
    dsimp only
    by_cases hc : (op == 0 || decide (op ≤ x.currentPriceD)) = true
    · rw [if_pos hc]
      exact Or.inl rfl
    · rw [if_neg hc]
      exact Or.inr ⟨_, rfl⟩

/-- Decomposition of a passed `_is_auction_interesting` cascade. -/
theorem interesting_pure_true (p : Policy) (x y : Auction)
    (h : interesting_pure p x = (true, y)) :
    price_ok p x = true ∧
    premium_step p x = (true, (premium_step p x).2) ∧
    time_ok p (premium_step p x).2 = true ∧
    activity_ok p (premium_step p x).2 = true ∧
    excluded_kw p (premium_step p x).2 = false ∧
    discount_step p (premium_step p x).2 = (true, y) := by
  unfold interesting_pure at h
  by_cases h1 : price_ok p x = true
  · rw [h1] at h
    simp only [Bool.not_true, Bool.false_eq_true, if_false] at h
    by_cases h2 : (premium_step p x).1 = true
    · rw [h2] at h
      simp only [Bool.not_true, Bool.false_eq_true, if_false] at h
      by_cases h3 : time_ok p (premium_step p x).2 = true
      · rw [h3] at h
        simp only [Bool.not_true, Bool.false_eq_true, if_false] at h
        by_cases h4 : activity_ok p (premium_step p x).2 = true
        · rw [h4] at h
          simp only [Bool.not_true, Bool.false_eq_true, if_false] at h
          by_cases h5 : excluded_kw p (premium_step p x).2 = true
          · rw [h5] at h
            simp at h
          · rw [Bool.not_eq_true] at h5
            rw [h5] at h
            simp only [Bool.false_eq_true, if_false] at h
            exact ⟨h1, Prod.ext h2 rfl, h3, h4, h5, h⟩
        · rw [Bool.not_eq_true] at h4
          rw [h4] at h
          simp at h
      · rw [Bool.not_eq_true] at h3
        rw [h3] at h
        simp at h
    · rw [Bool.not_eq_true] at h2
      rw [h2] at h
      simp at h
  · rw [Bool.not_eq_true] at h1
    rw [h1] at h
    simp at h

/-- Decomposition of a successful per-record pure pass: the produced
record is the interesting record enriched with its reasons and score. -/
theorem process_pure_some (p : Policy) (x b : Auction)
    (h : process_pure p x = some b) :
    ∃ y, interesting_pure p x = (true, y) ∧
      b = { { y with filter_reason := some (reasons_pure p y) } with
            interest_score := some (calculate_interest_score
              { y with filter_reason := some (reasons_pure p y) }) } := by
  unfold process_pure at h
  rcases hi : interesting_pure p x with ⟨flag, y⟩
  rw [hi] at h
  cases flag with
  | false => simp at h
  | true =>
    simp only [if_true] at h
    injection h with h
    exact ⟨y, rfl, h.symm⟩

/-- Every record collected by the filter loop comes from an input record
whose processing succeeded. -/
theorem mem_interesting (cfg : ConfigAttrs) (l : List Auction) (b : Auction)
    (h : b ∈ interesting_auctions cfg l) :
    ∃ a ∈ l, process_auction cfg a = .ok (some b) := by
  induction l with
  | nil => cases h
  | cons a rest ih =>
    simp only [interesting_auctions] at h
    cases hp : process_auction cfg a with
    | error e =>
      rw [hp] at h
      obtain ⟨c, hc, hcp⟩ := ih h
      exact ⟨c, List.mem_cons_of_mem a hc, hcp⟩
    | ok v =>
      cases v with
      | none =>
        rw [hp] at h
        obtain ⟨c, hc, hcp⟩ := ih h
        exact ⟨c, List.mem_cons_of_mem a hc, hcp⟩
      | some b' =>
        rw [hp] at h
        rcases List.mem_cons.mp h with hb | hb
        · exact ⟨a, List.mem_cons_self a rest, by rw [hp, hb]⟩
        · obtain ⟨c, hc, hcp⟩ := ih hb
          exact ⟨c, List.mem_cons_of_mem a hc, hcp⟩

/-- Decomposition of a successful per-record step under any config. -/
theorem process_auction_ok (cfg : ConfigAttrs) (x b : Auction)
    (h : process_auction cfg x = .ok (some b)) :
    ∃ y rs, is_auction_interesting cfg x = .ok (true, y) ∧
      get_filter_reasons cfg y = .ok rs ∧
      b = { { y with filter_reason := some rs } with
            interest_score := some (calculate_interest_score
              { y with filter_reason := some rs }) } := by
  unfold process_auction at h
  cases hi : is_auction_interesting cfg x with
  | error e =>
    rw [hi] at h
    simp at h
  | ok r =>
    rcases r with ⟨flag, y⟩
    rw [hi] at h
    simp only [exc_ok_bind] at h
    cases flag with
    | false => simp at h
    | true =>
      simp only [if_true] at h
      cases hr : get_filter_reasons cfg y with
      | error e =>
        rw [hr] at h
        simp at h
      | ok rs =>
        rw [hr] at h
        simp only [exc_ok_bind, exc_pure] at h
        injection h with h
        injection h with h
        exact ⟨y, rs, rfl, hr, h.symm⟩

/-- The claim's score formula agrees with the implementation's. -/
theorem claim_score_eq (a : Auction) : claim_score a = calculate_interest_score a := rfl

/-- Claim C4: for every survivor, `interest_score` equals the sum, rounded
to 2 decimals, of the discount contribution (`discount_percent / 10` when
positive), the capped bid activity `min(bids/2, 10)`, the urgency bonus
(`+5`/`+3`/`+1` at `<= 1`/`<= 2`/`<= 3` hours), at most one brand bonus
(first match in the order MacBook +3, ThinkPad +2, XPS +2, Surface +2,
Alienware +3), and the price bonus (`+3`/`+2`/`+1` at
`<= 500`/`<= 800`/`<= 1200`), all read off the survivor record. -/
theorem C4_interest_score (cfg : ConfigAttrs) (l : List Auction) (a : Auction)
    (h : a ∈ filter_interesting_auctions cfg l) :
    a.interest_score = some (claim_score a) := by
  simp only [filter_interesting_auctions, List.mem_insertionSort] at h
  obtain ⟨x, -, hx⟩ := mem_interesting cfg l a h
  obtain ⟨y, rs, -, -, hb⟩ := process_auction_ok cfg x a hx
  subst hb
  rw [claim_score_eq]
  rfl

/-- Witness for C4 at the concrete policy `wPol` and record `wIn`. -/
theorem C4_witness :
    wOut ∈ filter_interesting_auctions wPol.attrs [wIn] ∧
    wOut.interest_score = some (claim_score wOut) := by
  have hm : wOut ∈ filter_interesting_auctions wPol.attrs [wIn] := by
    rw [wFilterEval]
    exact List.mem_singleton_self wOut
  exact ⟨hm, C4_interest_score wPol.attrs [wIn] wOut hm⟩

/-- Witness for C8 at the concrete inputs `"Free"` and `"1.2.3"`. -/
theorem C8_witness :
    clean_chars "Free" = [] ∧ parse_price "Free" = none ∧
    is_numeric_clean (clean_chars "1.2.3") = false ∧ parse_price "1.2.3" = none :=
  ⟨by decide, C8_price_parsing.2.2.2.2.1 "Free" (by decide), by decide,
   C8_price_parsing.2.2.2.2.2 "1.2.3" (by decide)⟩

/-- A passed boolean alternative value check yields the claim's
alternative clause. -/
theorem alt_check_clause (p : Policy) (a : Auction) (h : alt_check p a = true) :
    alt_clause p a := by
  unfold alt_check at h
  unfold alt_clause
  rcases Bool.or_eq_true_iff.mp h with hA | hB
  · simp only [Bool.and_eq_true, decide_eq_true_eq] at hA
    exact Or.inl ⟨hA.1.1, hA.1.2, hA.2⟩
  · simp only [Bool.and_eq_true, decide_eq_true_eq] at hB
    exact Or.inr ⟨hB.1, hB.2⟩

/-- Claim C3: for every policy defining the thresholds and every input
list of records with nonnegative current price (the data model's
`current_price >= 0`), every record returned by the filter satisfies the
full predicate cascade: price within `[MIN_PRICE, MAX_PRICE]`, a premium
brand (backfilled from the title when unset), a time remaining in
`(0, MAX_TIME_REMAINING_HOURS]`, at least `MIN_BIDS` bids, no excluded
keyword in the title, and the discount/value check. -/
theorem C3_survivor_cascade (p : Policy) (l : List Auction) (a : Auction)
    (hpos : ∀ x ∈ l, 0 ≤ x.currentPriceD)
    (h : a ∈ filter_interesting_auctions p.attrs l) :
    cascade_holds p a := by
  simp only [filter_interesting_auctions, List.mem_insertionSort] at h
  obtain ⟨x, hxl, hx⟩ := mem_interesting p.attrs l a h
  rw [process_auction_attrs] at hx
  injection hx with hx
  obtain ⟨y, hy, hb⟩ := process_pure_some p x a hx
  obtain ⟨h1, h2, h3, h4, h5, h6⟩ := interesting_pure_true p x y hy
  have hy2 : (discount_step p (premium_step p x).2).2 = y := congrArg Prod.snd h6
  have ha2f : (premium_step p x).2.current_price = x.current_price ∧
      (premium_step p x).2.original_price = x.original_price ∧
      (premium_step p x).2.bids = x.bids ∧
      (premium_step p x).2.time_remaining_hours = x.time_remaining_hours ∧
      (premium_step p x).2.title = x.title := by
    rcases premium_step_snd p x with hp | ⟨pb, hp⟩ <;> rw [hp] <;>
      exact ⟨rfl, rfl, rfl, rfl, rfl⟩
  have hyf : y.current_price = (premium_step p x).2.current_price ∧
      y.original_price = (premium_step p x).2.original_price ∧
      y.bids = (premium_step p x).2.bids ∧
      y.time_remaining_hours = (premium_step p x).2.time_remaining_hours ∧
      y.title = (premium_step p x).2.title ∧
      y.brand = (premium_step p x).2.brand := by
    rcases discount_step_snd p (premium_step p x).2 with hd | ⟨d, hd⟩ <;>
      rw [← hy2, hd] <;> exact ⟨rfl, rfl, rfl, rfl, rfl, rfl⟩
  have haf : a.current_price = y.current_price ∧ a.original_price = y.original_price ∧
      a.bids = y.bids ∧ a.time_remaining_hours = y.time_remaining_hours ∧
      a.title = y.title ∧ a.brand = y.brand ∧ a.discount_percent = y.discount_percent := by
    rw [hb]
    exact ⟨rfl, rfl, rfl, rfl, rfl, rfl, rfl⟩
  have hcur : a.currentPriceD = (premium_step p x).2.currentPriceD := by
    unfold Auction.currentPriceD
    rw [haf.1, hyf.1]
  have hcurx : a.currentPriceD = x.currentPriceD := by
    unfold Auction.currentPriceD
    rw [haf.1, hyf.1, ha2f.1]
  have hbids : a.bidsD = (premium_step p x).2.bidsD := by
    unfold Auction.bidsD
    rw [haf.2.2.1, hyf.2.2.1]
  have htime : a.timeHoursD = (premium_step p x).2.timeHoursD := by
    unfold Auction.timeHoursD
    rw [haf.2.2.2.1, hyf.2.2.2.1]
  have htitle : a.titleD = (premium_step p x).2.titleD := by
    unfold Auction.titleD
    rw [haf.2.2.2.2.1, hyf.2.2.2.2.1]
  have hbrand : a.brand = (premium_step p x).2.brand := by
    rw [haf.2.2.2.2.2.1, hyf.2.2.2.2.2]
  have hbrandD : a.brandD = (premium_step p x).2.brandD := by
    unfold Auction.brandD
    rw [hbrand]
  have horig : a.original_price = (premium_step p x).2.original_price := by
    rw [haf.2.1, hyf.2.1]
  unfold cascade_holds
  refine ⟨?_, ?_, ?_, ?_, ?_, ?_⟩
  · simp only [price_ok, Bool.and_eq_true, decide_eq_true_eq] at h1
    rw [hcurx]
    exact h1
  · obtain ⟨s, hs, hmem⟩ := premium_step_true p x (premium_step p x).2 h2
    exact ⟨s, by rw [hbrand]; exact hs, hmem⟩
  · simp only [time_ok, Bool.and_eq_true, decide_eq_true_eq] at h3
    rw [htime]
    exact h3
  · simp only [activity_ok, decide_eq_true_eq] at h4
    rw [hbids]
    exact h4
  · intro k hk
    simp only [excluded_kw] at h5
    have hkf := List.any_eq_false.mp h5 k hk
    rw [htitle]
    simpa using hkf
  · rw [horig]
    unfold discount_step at h6
    cases ho : (premium_step p x).2.original_price with
    | none =>
      rw [ho] at h6
      dsimp only at h6
      simp only [Prod.mk.injEq] at h6
      have haltA : alt_check p a = true := by
        unfold alt_check
        rw [hbrandD, hcur, hbids]
        exact h6.1
      exact alt_check_clause p a haltA
    | some op =>
      rw [ho] at h6
      dsimp only at h6
      change if a.currentPriceD < op then
          a.discount_percent = some ((op - a.currentPriceD) / op * 100) ∧
            p.MIN_DISCOUNT_PERCENT ≤ (op - a.currentPriceD) / op * 100
        else alt_clause p a
      by_cases hop : (op == 0 || decide (op ≤ (premium_step p x).2.currentPriceD)) = true
      · rw [if_pos hop] at h6
        simp only [Prod.mk.injEq] at h6
        have hnlt : ¬ (a.currentPriceD < op) := by
          rcases Bool.or_eq_true_iff.mp hop with h0 | hle
          · have hop0 : op = 0 := by simpa using h0
            subst hop0
            have : (0 : ℚ) ≤ a.currentPriceD := by
              rw [hcurx]
              exact hpos x hxl
            exact not_lt.mpr this
          · have := of_decide_eq_true hle
            rw [← hcur] at this
            exact not_lt.mpr this
        rw [if_neg hnlt]
        have haltA : alt_check p a = true := by
          unfold alt_check
          rw [hbrandD, hcur, hbids]
          exact h6.1
        exact alt_check_clause p a haltA
      · rw [if_neg hop] at h6
        simp only [Prod.mk.injEq] at h6
        have hlt : a.currentPriceD < op := by
          rw [Bool.or_eq_true_iff] at hop
          push_neg at hop
          obtain ⟨-, hle⟩ := hop
          have : ¬ (op ≤ (premium_step p x).2.currentPriceD) := by
            intro hcon
            exact hle (decide_eq_true hcon)
          rw [← hcur] at this
          exact not_le.mp this
        rw [if_pos hlt]
        constructor
        · have hda : a.discount_percent = y.discount_percent := haf.2.2.2.2.2.2
          rw [hda, ← h6.2]
          rw [hcur]
        · have := of_decide_eq_true h6.1
          rw [hcur]
          exact this

/-- Witness for C3 at the concrete policy `wPol` and record `wIn`. -/
theorem C3_witness :
    (∀ x ∈ [wIn], 0 ≤ x.currentPriceD) ∧
    wOut ∈ filter_interesting_auctions wPol.attrs [wIn] ∧
    cascade_holds wPol wOut := by
  have hpos : ∀ x ∈ [wIn], 0 ≤ x.currentPriceD := by decide
  have hm : wOut ∈ filter_interesting_auctions wPol.attrs [wIn] := by
    rw [wFilterEval]
    exact List.mem_singleton_self wOut
  exact ⟨hpos, hm, C3_survivor_cascade wPol [wIn] wOut hpos hm⟩

/-! Idempotence of the filter (claim C10). -/

/-- Writing back the value a field already holds changes nothing. -/
theorem set_brand_eq (a : Auction) (v : Option String) (h : a.brand = v) :
    { a with brand := v } = a := by
  cases a
  cases h
  rfl

/-- Writing back the value a field already holds changes nothing. -/
theorem set_discount_eq (a : Auction) (v : Option ℚ) (h : a.discount_percent = v) :
    { a with discount_percent := v } = a := by
  cases a
  cases h
  rfl

/-- Writing back the value a field already holds changes nothing. -/
theorem set_reason_eq (a : Auction) (v : Option (List String)) (h : a.filter_reason = v) :
    { a with filter_reason := v } = a := by
  cases a
  cases h
  rfl

/-- Writing back the value a field already holds changes nothing. -/
theorem set_score_eq (a : Auction) (v : Option ℚ) (h : a.interest_score = v) :
    { a with interest_score := v } = a := by
  cases a
  cases h
  rfl

/-- Writing back the values two fields already hold changes nothing. -/
theorem set_fr_score_eq (a : Auction) (v1 : Option (List String)) (v2 : Option ℚ)
    (h1 : a.filter_reason = v1) (h2 : a.interest_score = v2) :
    { a with filter_reason := v1, interest_score := v2 } = a := by
  cases a
  cases h1
  cases h2
  rfl

/-- Writing back the values two fields already hold changes nothing. -/
theorem set_orig_discount_eq (a : Auction) (v1 v2 : Option ℚ)
    (h1 : a.original_price = v1) (h2 : a.discount_percent = v2) :
    { a with original_price := v1, discount_percent := v2 } = a := by
  cases a
  cases h1
  cases h2
  rfl

/-- Full decomposition of a passed premium-brand step. -/
theorem premium_step_true_cases (p : Policy) (x a2 : Auction)
    (h : premium_step p x = (true, a2)) :
    (strTruthy x.brand = true ∧ a2 = x ∧
      p.PREMIUM_BRANDS.contains x.brandD = true) ∨
    (strTruthy x.brand = false ∧
      ∃ pb, p.PREMIUM_BRANDS.find?
          (fun pb => strContains (strLower x.titleD) (strLower pb)) = some pb ∧
        a2 = { x with brand := some pb }) := by
  unfold premium_step at h
  by_cases ht : strTruthy x.brand = true
  · rw [if_pos ht] at h
    simp only [Prod.mk.injEq] at h
    exact Or.inl ⟨ht, h.2.symm, h.1⟩
  · rw [if_neg ht] at h
    rw [Bool.not_eq_true] at ht
    cases hf : p.PREMIUM_BRANDS.find?
        (fun pb => strContains (strLower x.titleD) (strLower pb)) with
    | none =>
      rw [hf] at h
      simp at h
    | some pb =>
      rw [hf] at h
      simp only [Prod.mk.injEq] at h
      exact Or.inr ⟨ht, pb, rfl, h.2.symm⟩

/-- A record produced by a successful pure pass passes the whole cascade
again, unchanged: the per-record step is idempotent. -/
theorem process_pure_idem (p : Policy) (x b : Auction)
    (h : process_pure p x = some b) : process_pure p b = some b := by
  obtain ⟨y, hy, hb⟩ := process_pure_some p x b h
  obtain ⟨h1, h2, h3, h4, h5, h6⟩ := interesting_pure_true p x y hy
  have hy2 : (discount_step p (premium_step p x).2).2 = y := congrArg Prod.snd h6
  have ha2f : (premium_step p x).2.current_price = x.current_price ∧
      (premium_step p x).2.original_price = x.original_price ∧
      (premium_step p x).2.bids = x.bids ∧
      (premium_step p x).2.time_remaining_hours = x.time_remaining_hours ∧
      (premium_step p x).2.title = x.title := by
    rcases premium_step_snd p x with hp | ⟨pb, hp⟩ <;> rw [hp] <;>
      exact ⟨rfl, rfl, rfl, rfl, rfl⟩
  have hyf : y.current_price = (premium_step p x).2.current_price ∧
      y.original_price = (premium_step p x).2.original_price ∧
      y.bids = (premium_step p x).2.bids ∧
      y.time_remaining_hours = (premium_step p x).2.time_remaining_hours ∧
      y.title = (premium_step p x).2.title ∧
      y.brand = (premium_step p x).2.brand := by
    rcases discount_step_snd p (premium_step p x).2 with hd | ⟨d, hd⟩ <;>
      rw [← hy2, hd] <;> exact ⟨rfl, rfl, rfl, rfl, rfl, rfl⟩
  -- transport from the enriched record `b` back to `y`
  have hbCp : b.currentPriceD = y.currentPriceD := by subst hb; rfl
  have hbBids : b.bidsD = y.bidsD := by subst hb; rfl
  have hbTime : b.timeHoursD = y.timeHoursD := by subst hb; rfl
  have hbTitleD : b.titleD = y.titleD := by subst hb; rfl
  have hbBrand : b.brand = y.brand := by subst hb; rfl
  have hbBrandD : b.brandD = y.brandD := by subst hb; rfl
  have hbOrig : b.original_price = y.original_price := by subst hb; rfl
  have hbP : price_ok p b = price_ok p y := by subst hb; rfl
  have hbT : time_ok p b = time_ok p y := by subst hb; rfl
  have hbA : activity_ok p b = activity_ok p y := by subst hb; rfl
  have hbE : excluded_kw p b = excluded_kw p y := by subst hb; rfl
  have hbAlt : alt_check p b = alt_check p y := by subst hb; rfl
  have hbReasons : reasons_pure p b = reasons_pure p y := by subst hb; rfl
  have hbFr : b.filter_reason = some (reasons_pure p y) := by subst hb; rfl
  have hbScore : b.interest_score =
      some (calculate_interest_score { y with filter_reason := some (reasons_pure p y) }) := by
    subst hb; rfl
  have hbCalc : calculate_interest_score b =
      calculate_interest_score { y with filter_reason := some (reasons_pure p y) } := by
    subst hb; rfl
  -- y to a2 getter transport
  have hyCp : y.currentPriceD = (premium_step p x).2.currentPriceD := by
    unfold Auction.currentPriceD
    rw [hyf.1]
  have hyBids : y.bidsD = (premium_step p x).2.bidsD := by
    unfold Auction.bidsD
    rw [hyf.2.2.1]
  have hyTime : y.timeHoursD = (premium_step p x).2.timeHoursD := by
    unfold Auction.timeHoursD
    rw [hyf.2.2.2.1]
  have hyTitleD : y.titleD = (premium_step p x).2.titleD := by
    unfold Auction.titleD
    rw [hyf.2.2.2.2.1]
  -- step 1: price
  have hpB : price_ok p b = true := by
    rw [hbP]
    have : price_ok p y = price_ok p x := by
      unfold price_ok Auction.currentPriceD
      rw [hyf.1, ha2f.1]
    rw [this]
    exact h1
  -- step 2: premium brand leaves `b` unchanged
  have hpremB : premium_step p b = (true, b) := by
    rcases premium_step_true_cases p x (premium_step p x).2 h2 with
      ⟨htr, hax, hcont⟩ | ⟨hfalsy, pb, hfind, ha2eq⟩
    · have hBbrand : b.brand = x.brand := by
        rw [hbBrand, hyf.2.2.2.2.2, hax]
      have htrB : strTruthy b.brand = true := by
        rw [hBbrand]
        exact htr
      unfold premium_step
      rw [if_pos htrB]
      have hBd : b.brandD = x.brandD := by
        unfold Auction.brandD
        rw [hBbrand]
      rw [hBd, hcont]
    · have hBbrand : b.brand = some pb := by
        rw [hbBrand, hyf.2.2.2.2.2, ha2eq]
      by_cases htrB : strTruthy b.brand = true
      · unfold premium_step
        rw [if_pos htrB]
        have hmem : pb ∈ p.PREMIUM_BRANDS := List.mem_of_find?_eq_some hfind
        have hBd : b.brandD = pb := by
          unfold Auction.brandD
          rw [hBbrand]
          rfl
        have hcontB : p.PREMIUM_BRANDS.contains b.brandD = true := by
          rw [hBd]
          simpa using hmem
        rw [hcontB]
      · unfold premium_step
        rw [if_neg htrB]
        have hBt : b.titleD = x.titleD := by
          rw [hbTitleD, hyTitleD]
          unfold Auction.titleD
          rw [ha2f.2.2.2.2]
        have hfindB : p.PREMIUM_BRANDS.find?
            (fun q => strContains (strLower b.titleD) (strLower q)) = some pb := by
          rw [hBt]
          exact hfind
        rw [hfindB]
        change (true, { b with brand := some pb }) = (true, b)
        rw [set_brand_eq b (some pb) hBbrand]
  -- steps 3-5 transported
  have htB : time_ok p b = true := by
    rw [hbT]
    have : time_ok p y = time_ok p (premium_step p x).2 := by
      unfold time_ok Auction.timeHoursD
      rw [hyf.2.2.2.1]
    rw [this]
    exact h3
  have haB : activity_ok p b = true := by
    rw [hbA]
    have : activity_ok p y = activity_ok p (premium_step p x).2 := by
      unfold activity_ok Auction.bidsD
      rw [hyf.2.2.1]
    rw [this]
    exact h4
  have heB : excluded_kw p b = false := by
    rw [hbE]
    have : excluded_kw p y = excluded_kw p (premium_step p x).2 := by
      unfold excluded_kw Auction.titleD
      rw [hyf.2.2.2.2.1]
    rw [this]
    exact h5
  -- step 6: the discount step leaves `b` unchanged
  have haltYA2 : alt_check p y = alt_check p (premium_step p x).2 := by
    unfold alt_check Auction.brandD Auction.currentPriceD Auction.bidsD
    rw [hyf.1, hyf.2.2.1, hyf.2.2.2.2.2]
  have hdiscB : discount_step p b = (true, b) := by
    unfold discount_step at h6
    unfold discount_step
    cases ho : b.original_price with
    | none =>
      have hoA2 : (premium_step p x).2.original_price = none := by
        rw [← hyf.2.1, ← hbOrig, ho]
      rw [hoA2] at h6
      dsimp only at h6
      simp only [Prod.mk.injEq] at h6
      change (alt_check p b, b) = (true, b)
      rw [hbAlt, haltYA2, h6.1]
    | some op =>
      have hoA2 : (premium_step p x).2.original_price = some op := by
        rw [← hyf.2.1, ← hbOrig, ho]
      rw [hoA2] at h6
      dsimp only at h6
      change (if (op == 0 || decide (op ≤ b.currentPriceD)) = true then (alt_check p b, b)
        else ((decide (p.MIN_DISCOUNT_PERCENT ≤ (op - b.currentPriceD) / op * 100),
          { b with original_price := some op,
                   discount_percent := some ((op - b.currentPriceD) / op * 100) }))) = (true, b)
      rw [hbCp, hyCp]
      by_cases hop : (op == 0 || decide (op ≤ (premium_step p x).2.currentPriceD)) = true
      · rw [if_pos hop]
        rw [if_pos hop] at h6
        simp only [Prod.mk.injEq] at h6
        rw [hbAlt, haltYA2, h6.1]
      · rw [if_neg hop]
        rw [if_neg hop] at h6
        simp only [Prod.mk.injEq] at h6
        rw [h6.1]
        have hbD : b.discount_percent =
            some ((op - (premium_step p x).2.currentPriceD) / op * 100) := by
          have hby : b.discount_percent = y.discount_percent := by subst hb; rfl
          rw [hby, ← h6.2]
        rw [set_orig_discount_eq b (some op) _ ho hbD]
  -- the whole cascade on `b`
  have hint : interesting_pure p b = (true, b) := by
    unfold interesting_pure
    rw [hpB, hpremB]
    dsimp only
    rw [htB, haB, heB, hdiscB]
    simp
  unfold process_pure
  rw [hint]
  dsimp only
  have hfr2 : b.filter_reason = some (reasons_pure p b) := by
    rw [hbReasons]
    exact hbFr
  have hsc2 : b.interest_score = some (calculate_interest_score b) := by
    rw [hbScore, hbCalc]
  rw [set_reason_eq b (some (reasons_pure p b)) hfr2]
  rw [set_fr_score_eq b (some (reasons_pure p b)) (some (calculate_interest_score b)) hfr2 hsc2]
  rfl

/-- Mapping an option-valued function that fixes every member of a list
leaves the list unchanged. -/
theorem filterMap_id_of {α : Type} (f : α → Option α) :
    ∀ (m : List α), (∀ b ∈ m, f b = some b) → m.filterMap f = m := by
  intro m
  induction m with
  | nil => intro _; rfl
  | cons a rest ih =>
    intro hall
    rw [List.filterMap_cons, hall a (List.mem_cons_self a rest)]
    rw [ih fun b hbm => hall b (List.mem_cons_of_mem a hbm)]

/-- Claim C10: for a fixed full policy, filtering the filter's own output
returns that output unchanged — every survivor still passes every
predicate with identical enrichment, and re-sorting a sorted list is the
identity. -/
theorem C10_idempotent (p : Policy) (l : List Auction) :
    filter_interesting_auctions p.attrs (filter_interesting_auctions p.attrs l) =
      filter_interesting_auctions p.attrs l := by
  have hall : ∀ b ∈ filter_interesting_auctions p.attrs l, process_pure p b = some b := by
    intro b hbmem
    simp only [filter_interesting_auctions, List.mem_insertionSort] at hbmem
    rw [interesting_auctions_attrs] at hbmem
    obtain ⟨x, -, hx⟩ := List.mem_filterMap.mp hbmem
    exact process_pure_idem p x b hx
  show List.insertionSort scoreGE
      (interesting_auctions p.attrs (filter_interesting_auctions p.attrs l)) =
    filter_interesting_auctions p.attrs l
  rw [interesting_auctions_attrs, filterMap_id_of _ _ hall]
  exact List.Sorted.insertionSort_eq (List.sorted_insertionSort scoreGE _)

end Scrapper
